import Mathlib

/-!
Verification of the SimpleRenderer core (software 3D rasterizer).

Shallow embedding conventions:
* `float` is modelled by `ℚ` (exact arithmetic); machine epsilon of `float`
  (`std::numeric_limits<float>::epsilon()` = 2⁻²³) is the constant `flt_epsilon`.
* `NaN` is not representable in `ℚ`; the `HasNaNs`/`isnan` guards of the C++
  code are therefore vacuous in the embedding, except for depth values, which
  are modelled by a value paired with an explicit NaN flag because the
  framebuffer contract inspects NaN-ness of depths.
* C++ exceptions are modelled by `Except renderError`.
* Raw 4x4 arrays are modelled as total functions `Nat → Nat → ℚ`; the cells
  with index ≥ 4 stand for storage the C++ object does not own and are kept at
  the value 0 that the loops of the source never write; no theorem below
  depends on those cells.
* `vector.hpp` (`vector4_t`) is not part of the sources; its operations are
  modelled from the spec where marked.
-/

namespace SimpleRenderer

/-- Errors thrown by the C++ code: `std::invalid_argument`, `std::runtime_error`
(used both for self-assignment and for the singular-matrix failure of
`matrix_t::inverse`), and the raw string thrown on a NaN depth. -/
inductive renderError : Type where
  | invalidArgument : renderError
  | runtimeError : renderError
  | singularMatrix : renderError
  | nanDepth : renderError
deriving DecidableEq, Repr

/-- Modelled from the spec: `vector.hpp` is absent from the sources.
"Vector4: four floating-point components (x,y,z,w)." -/
structure vector4f_t : Type where
  x : ℚ
  y : ℚ
  z : ℚ
  w : ℚ
deriving DecidableEq, Repr

/-- Modelled from the spec: the three-argument `vector4f_t` constructor builds a
direction-like vector, `w` defaulting to 0 ("w distinguishes points (w=1) from
directions (w=0)"). -/
def vector4f_t.mk3 (x y z : ℚ) : vector4f_t := ⟨x, y, z, 0⟩

/-- Modelled from the spec: the default `vector4f_t()` value (all components
zero). -/
def vector4f_t.zero : vector4f_t := ⟨0, 0, 0, 0⟩

/-- Modelled from the spec: component-wise vector subtraction (§4.1
"value-type 4-vectors ... supporting addition, subtraction"). -/
def vsub (a b : vector4f_t) : vector4f_t := ⟨a.x - b.x, a.y - b.y, a.z - b.z, a.w - b.w⟩

/-- Modelled from the spec: scalar multiple of a vector (used only to state
collinearity of a triple of points). -/
def vsmul (k : ℚ) (a : vector4f_t) : vector4f_t := ⟨k * a.x, k * a.y, k * a.z, k * a.w⟩

/-- Modelled from the spec: cross product, "3-component, ignoring w" (§4.1);
the result is a direction, so its `w` is 0. This is the operator `^` of the
sources. -/
def vcross (a b : vector4f_t) : vector4f_t :=
  ⟨a.y * b.z - a.z * b.y, a.z * b.x - a.x * b.z, a.x * b.y - a.y * b.x, 0⟩

/-- Modelled from the spec: normalization divides by the Euclidean length
(§4.1); the square root of the element type is passed in as the parameter
`sqrtf` standing for `std::sqrt`. Of the two policies the spec allows for a
zero length we model "returns a zero vector". -/
def vnormalize (sqrtf : ℚ → ℚ) (a : vector4f_t) : vector4f_t :=
  let len := sqrtf (a.x * a.x + a.y * a.y + a.z * a.z)
  if len = 0 then vector4f_t.zero
  else ⟨a.x / len, a.y / len, a.z / len, a.w / len⟩

/-- A triple of points lying on one line (the "collinear triple" of the spec):
one of the two edge vectors out of `p0` is a scalar multiple of the other. -/
def Collinear3 (p0 p1 p2 : vector4f_t) : Prop :=
  ∃ k : ℚ, vsub p1 p0 = vsmul k (vsub p2 p0) ∨ vsub p2 p0 = vsmul k (vsub p1 p0)

/-- The denominator `deno = ab.x * ac.y - ab.y * ac.x` of
`default_shader_t::get_barycentric_coord` (default_shader.cpp line 28), with
`ab = _p1 - _p0` and `ac = _p2 - _p0`. -/
def bary_deno (p0 p1 p2 : vector4f_t) : ℚ :=
  (vsub p1 p0).x * (vsub p2 p0).y - (vsub p1 p0).y * (vsub p2 p0).x

/-- Embedding of `default_shader_t::get_barycentric_coord`
(default_shader.cpp lines 19-42). -/
def get_barycentric_coord (p0 p1 p2 p : vector4f_t) : Bool × vector4f_t :=
  let ab := vsub p1 p0
  let ac := vsub p2 p0
  let ap := vsub p p0
  let deno := ab.x * ac.y - ab.y * ac.x
  if deno = 0 then
    (false, vector4f_t.zero)
  else
    let s := (ac.y * ap.x - ac.x * ap.y) / deno
    let t := (ab.x * ap.y - ab.y * ap.x) / deno
    let weights := vector4f_t.mk3 (1 - s - t) s t
    let res := (decide (weights.x ≤ 1) && decide (weights.x ≥ 0))
            && ((decide (weights.y ≤ 1) && decide (weights.y ≥ 0))
             && (decide (weights.z ≤ 1) && decide (weights.z ≥ 0)))
    (res, weights)

/-- The machine epsilon of the element type `float`
(`std::numeric_limits<float>::epsilon()` = 2⁻²³). -/
def flt_epsilon : ℚ := 1 / 2 ^ 23

/-- Embedding of the 4x4 `matrix_t<float>` of matrix.hpp: the `ORDER`×`ORDER`
array `mat`, as a total function on `Nat` (cells with index ≥ 4 model storage
the object does not own; they carry the value 0 and no theorem reads them). -/
structure matrix_t : Type where
  mat : Nat → Nat → ℚ

/-- The default `matrix_t` constructor (matrix.hpp lines 509-516): `memset` to
zero, then ones on the diagonal of the 4x4 grid. -/
def matrix_t.identity : matrix_t :=
  ⟨fun i j => if i < 4 ∧ j < 4 then (if i = j then 1 else 0) else 0⟩

/-- One iteration of the element-copying double loop of `matrix_t::cofactor`
(matrix.hpp lines 478-489): state is (row_idx, col_idx, tmp); an element not on
the deleted row/column is written at (row_idx, col_idx), then col_idx is
incremented and wraps to a fresh row when it reaches `_order - 1`. -/
def cofStep (m : matrix_t) (row col order : Nat)
    (st : Nat × Nat × (Nat → Nat → ℚ)) (i j : Nat) : Nat × Nat × (Nat → Nat → ℚ) :=
  match st with
  | (row_idx, col_idx, tmp) =>
    if i ≠ row ∧ j ≠ col then
      let tmp2 := fun a b => if a = row_idx ∧ b = col_idx then m.mat i j else tmp a b
      if col_idx + 1 = order - 1 then (row_idx + 1, 0, tmp2) else (row_idx, col_idx + 1, tmp2)
    else (row_idx, col_idx, tmp)

/-- Embedding of `matrix_t::cofactor` (matrix.hpp lines 471-491): the minor
obtained by deleting row `_row` and column `_col` of the leading
`_order`×`_order` block, written into the top-left corner of a zero-initialized
4x4 array. -/
def cofactor (m : matrix_t) (row col order : Nat) : matrix_t :=
  ⟨((List.range order).foldl (fun st i =>
      (List.range order).foldl (fun st2 j => cofStep m row col order st2 i j) st)
      (0, 0, fun _ _ => (0 : ℚ))).2.2⟩

/-- Embedding of `matrix_t::determ` (matrix.hpp lines 452-469): recursive
cofactor expansion along row 0 of the leading `_order`×`_order` block, with the
alternating sign carried through the loop. An order of 0 never arises in the
source; its loop would run zero times leaving `res = 0`. -/
def determ (m : matrix_t) : Nat → ℚ
  | 0 => 0
  | 1 => m.mat 0 0
  | k + 2 =>
    ((List.range (k + 2)).foldl (fun (acc : ℚ × ℚ) i =>
        (acc.1 + acc.2 * m.mat 0 i * determ (cofactor m 0 i (k + 2)) (k + 1), -acc.2))
      (0, 1)).1

/-- Embedding of `matrix_t::adjoint` (matrix.hpp lines 493-507): the transpose
of the cofactor matrix, `tmp[j][i] = (-1)^(i+j) * det(cofactor(i, j))`. -/
def adjoint (m : matrix_t) : matrix_t :=
  ⟨fun a b => if a < 4 ∧ b < 4 then
      (if (b + a) % 2 = 0 then (1 : ℚ) else -1) * determ (cofactor m b a 4) 3
    else 0⟩

/-- Embedding of `matrix_t::operator*` for two matrices (matrix.hpp lines
636-650): the inner k-loop accumulated into `tmp[i][j]` starting from 0. The
NaN guard of the source is vacuous over `ℚ`. -/
def matMul (m n : matrix_t) : matrix_t :=
  ⟨fun i j => if i < 4 ∧ j < 4 then
      m.mat i 0 * n.mat 0 j + m.mat i 1 * n.mat 1 j
        + m.mat i 2 * n.mat 2 j + m.mat i 3 * n.mat 3 j
    else 0⟩

/-- Embedding of the friend `operator*(matrix, scalar)` of matrix.hpp (lines
169-186): `tmp[i][j] = _v * _mat[i][j]`. -/
def matScale (m : matrix_t) (v : ℚ) : matrix_t :=
  ⟨fun i j => if i < 4 ∧ j < 4 then v * m.mat i j else 0⟩

/-- Embedding of `matrix_t::operator==` (matrix.hpp lines 682-696): true iff no
entry of the 4x4 grid differs by more than the machine epsilon. -/
def matrixApproxEq (m n : matrix_t) : Bool :=
  (List.range 4).all fun i =>
    (List.range 4).all fun j => decide (|m.mat i j - n.mat i j| ≤ flt_epsilon)

/-- Embedding of `matrix_t::inverse` (matrix.hpp lines 741-761): fail when
`|determ(ORDER)| ≤ epsilon` (a `std::runtime_error`, "Singular matrix"), else
return `adjoint() * (1 / det)`. The method is `const`: the receiver is read
only, which the pure embedding reflects by construction. The `HasNaNs` guard is
vacuous over `ℚ`. -/
def inverse (m : matrix_t) : Except renderError matrix_t :=
  let det := determ m 4
  if |det| ≤ flt_epsilon then .error .singularMatrix
  else .ok (matScale (adjoint m) (1 / det))

/-- Embedding of the row-subscript `matrix_t::operator[]` (matrix.hpp lines
714-728): the guard rejects only `_idx > ORDER`; an accepted index yields the
row pointer `mat[_idx]`, modelled as the function reading row `_idx`. -/
def matrix_row_subscript (m : matrix_t) (idx : Nat) : Except renderError (Nat → ℚ) :=
  if idx > 4 then .error .invalidArgument else .ok (fun j => m.mat idx j)

/-- Embedding of `matrix_t::operator=` (matrix.hpp lines 570-580): the NaN
guard is vacuous over `ℚ`; aliasing of `this` and `&_mat` (a fact of object
identity, not of values) is passed in as the flag `self`; on aliasing the
source throws `std::runtime_error`, otherwise the fields are copied. -/
def matrix_assign (dst src : matrix_t) (self : Bool) : Except renderError matrix_t :=
  if self then .error .runtimeError else .ok src

/-- A single store `tmp[i][j] = v` into a 4x4 array (used by the transform
builders below). -/
def matUpd (m : matrix_t) (i j : Nat) (v : ℚ) : matrix_t :=
  ⟨fun a b => if a = i ∧ b = j then v else m.mat a b⟩

/-- Embedding of `matrix_t::translate` (matrix.hpp lines 763-776): build `tmp`
from the identity by the four stores of the source, then return `tmp * *this`.
The receiver is read only. -/
def matrix_t.translate (m : matrix_t) (x y z : ℚ) : matrix_t :=
  matMul (matUpd (matUpd (matUpd (matUpd matrix_t.identity 0 3 x) 1 3 y) 2 3 z) 3 3 1) m

/-- Embedding of the uniform `matrix_t::scale` (matrix.hpp lines 778-789). -/
def matrix_t.scaleUniform (m : matrix_t) (s : ℚ) : matrix_t :=
  matMul (matUpd (matUpd (matUpd (matUpd matrix_t.identity 0 0 s) 1 1 s) 2 2 s) 3 3 1) m

/-- Embedding of the per-axis `matrix_t::scale` (matrix.hpp lines 791-804). -/
def matrix_t.scaleXYZ (m : matrix_t) (x y z : ℚ) : matrix_t :=
  matMul (matUpd (matUpd (matUpd (matUpd matrix_t.identity 0 0 x) 1 1 y) 2 2 z) 3 3 1) m

/-- Embedding of `matrix_t::rotate` (matrix.hpp lines 806-833): normalize the
axis, then fill the 3x3 Rodrigues block of an identity `tmp` and return
`tmp * *this`. The library functions `std::sqrt`, `std::cos`, `std::sin` are
passed in as `sqrtf`, `cosf`, `sinf`. -/
def matrix_t.rotate (sqrtf cosf sinf : ℚ → ℚ) (m : matrix_t) (x y z angle : ℚ) : matrix_t :=
  let n := vnormalize sqrtf (vector4f_t.mk3 x y z)
  let c := cosf angle
  let s := sinf angle
  matMul
    (matUpd (matUpd (matUpd
      (matUpd (matUpd (matUpd
        (matUpd (matUpd (matUpd matrix_t.identity
          0 0 (n.x * n.x * (1 - c) + c))
          0 1 (n.y * n.x * (1 - c) - s * n.z))
          0 2 (n.z * n.x * (1 - c) + s * n.y))
          1 0 (n.x * n.y * (1 - c) + s * n.z))
          1 1 (n.y * n.y * (1 - c) + c))
          1 2 (n.z * n.y * (1 - c) - s * n.x))
          2 0 (n.x * n.z * (1 - c) - s * n.y))
          2 1 (n.y * n.z * (1 - c) + s * n.x))
          2 2 (n.z * n.z * (1 - c) + c))
    m

/-- The translation matrix as the spec describes it: identity with the
translation vector in the last column. -/
def translationMatrix (x y z : ℚ) : matrix_t :=
  ⟨fun i j =>
    if i = 0 ∧ j = 3 then x
    else if i = 1 ∧ j = 3 then y
    else if i = 2 ∧ j = 3 then z
    else if i = j ∧ i < 4 then 1 else 0⟩

/-- The (per-axis) scaling matrix as the spec describes it: the factors on the
diagonal, 1 in the homogeneous corner. -/
def scaleMatrix (x y z : ℚ) : matrix_t :=
  ⟨fun i j =>
    if i = 0 ∧ j = 0 then x
    else if i = 1 ∧ j = 1 then y
    else if i = 2 ∧ j = 2 then z
    else if i = j ∧ i < 4 then 1 else 0⟩

/-- The axis-angle rotation matrix of Rodrigues' construction, as the spec
describes it, for a normalized axis `n` and cosine/sine `c`, `s` of the
angle. -/
def rotationMatrix (n : vector4f_t) (c s : ℚ) : matrix_t :=
  ⟨fun i j =>
    if i = 0 ∧ j = 0 then n.x * n.x * (1 - c) + c
    else if i = 0 ∧ j = 1 then n.y * n.x * (1 - c) - s * n.z
    else if i = 0 ∧ j = 2 then n.z * n.x * (1 - c) + s * n.y
    else if i = 1 ∧ j = 0 then n.x * n.y * (1 - c) + s * n.z
    else if i = 1 ∧ j = 1 then n.y * n.y * (1 - c) + c
    else if i = 1 ∧ j = 2 then n.z * n.y * (1 - c) - s * n.x
    else if i = 2 ∧ j = 0 then n.x * n.z * (1 - c) - s * n.y
    else if i = 2 ∧ j = 1 then n.y * n.z * (1 - c) + s * n.x
    else if i = 2 ∧ j = 2 then n.z * n.z * (1 - c) + c
    else if i = j ∧ i < 4 then 1 else 0⟩

/-- Embedding of the friend `operator*(matrix, vector)` of matrix.hpp (lines
223-241): the matrix applied to a column vector. -/
def matVecMul (m : matrix_t) (v : vector4f_t) : vector4f_t :=
  ⟨v.x * m.mat 0 0 + v.y * m.mat 0 1 + v.z * m.mat 0 2 + v.w * m.mat 0 3,
   v.x * m.mat 1 0 + v.y * m.mat 1 1 + v.z * m.mat 1 2 + v.w * m.mat 1 3,
   v.x * m.mat 2 0 + v.y * m.mat 2 1 + v.z * m.mat 2 2 + v.w * m.mat 2 3,
   v.x * m.mat 3 0 + v.y * m.mat 3 1 + v.z * m.mat 3 2 + v.w * m.mat 3 3⟩

/-- The index map realized by the copy loop of `cofactor`: the rows (columns)
of the minor are the rows (columns) of the original with `k` skipped. -/
def skip (k i : Nat) : Nat := if i < k then i else i + 1

/-- A diagonal matrix, used as concrete input of witnesses. -/
def diagMat (a b c d : ℚ) : matrix_t :=
  ⟨fun i j => if i = j ∧ i < 4 then
      (if i = 0 then a else if i = 1 then b else if i = 2 then c else d)
    else 0⟩

/-- The `color_t` of color.h: four 8-bit channels r, g, b, a. -/
structure color_t : Type where
  channel_r : Nat
  channel_g : Nat
  channel_b : Nat
  channel_a : Nat
deriving DecidableEq, Repr

/-- `framebuffer_t::depth_t` is `float`; modelled with an explicit NaN flag
because the framebuffer contract branches on `std::isnan(_depth)`. -/
structure depth_t : Type where
  val : ℚ
  isNaN : Bool
deriving DecidableEq, Repr

/-- Embedding of `framebuffer_t` (framebuffer.cpp): a width, a height, and the
two flat row-major arrays (`color_arr`, `depth_arr`) of its color and depth
buffers. The buffers share the framebuffer's dimensions — an invariant the
constructors enforce. Cell (x, y) lives at flat index `y * width + x`. -/
structure framebuffer_t : Type where
  width : Nat
  height : Nat
  colorArr : Nat → color_t
  depthArr : Nat → depth_t

/-- Embedding of `framebuffer_t::pixel` (framebuffer.cpp lines 270-287): the
three guards run before any store, so a throw leaves both buffers untouched
(the embedding returns no new state on error); on success `color_buffer(x,y)`
and `depth_buffer(x,y)` are stored in sequence. -/
def framebuffer_t.pixel (fb : framebuffer_t) (x y : Nat) (c : color_t) (d : depth_t) :
    Except renderError framebuffer_t :=
  if x ≥ fb.width then .error .invalidArgument
  else if y ≥ fb.height then .error .invalidArgument
  else if d.isNaN then .error .nanDepth
  else .ok { fb with
    colorArr := fun idx => if idx = y * fb.width + x then c else fb.colorArr idx
    depthArr := fun idx => if idx = y * fb.width + x then d else fb.depthArr idx }

/-- `color_t::BPP` (color.h lines 32-35): `sizeof(uint8_t) * DEPTH` = 4 bytes
per pixel; also `sizeof(color_t)` since the class holds exactly the four
channel bytes. -/
def sizeof_color_t : Nat := 4

/-- `sizeof(framebuffer_t::depth_t)` = `sizeof(float)` = 4. -/
def sizeof_depth_t : Nat := 4

/-- The number of `color_t` elements `std::copy` reads from the source in
`color_buffer_t::operator=` (framebuffer.cpp lines 77-79): the end iterator is
`color_arr + width * height * sizeof(color_t)`, an element count, not a byte
count. -/
def color_assign_copy_count (w h : Nat) : Nat := w * h * sizeof_color_t

/-- The number of `color_t` elements a `color_buffer_t` of the given dimensions
owns (`new color_t[width * height]`, framebuffer.cpp line 72). -/
def color_buffer_alloc_count (w h : Nat) : Nat := w * h

/-- The number of `depth_t` elements `std::copy` reads from the source in
`depth_buffer_t::operator=` (framebuffer.cpp lines 170-172): the end iterator
is `depth_arr + width * height * sizeof(depth_t)`. -/
def depth_assign_copy_count (w h : Nat) : Nat := w * h * sizeof_depth_t

/-- The number of `depth_t` elements a `depth_buffer_t` of the given dimensions
owns (`new depth_t[width * height]`, framebuffer.cpp line 165). -/
def depth_buffer_alloc_count (w h : Nat) : Nat := w * h

/-- Modelled from the spec: the deep element-wise duplication the spec requires
of buffer assignment copies exactly `width * height` elements. -/
def spec_deep_copy_count (w h : Nat) : Nat := w * h

/-- Embedding of `framebuffer_t::operator=` (framebuffer.cpp lines 238-251):
self-assignment throws `std::runtime_error`, mismatched dimensions throw
`std::invalid_argument`, else both buffers are copied. -/
def framebuffer_assign (dst src : framebuffer_t) (self : Bool) :
    Except renderError framebuffer_t :=
  if self then .error .runtimeError
  else if dst.width ≠ src.width then .error .invalidArgument
  else if dst.height ≠ src.height then .error .invalidArgument
  else .ok { dst with colorArr := src.colorArr, depthArr := src.depthArr }

/-- `model_t::texcoord_t`: a 2-float texture coordinate. -/
structure texcoord_t : Type where
  u : ℚ
  v : ℚ
deriving DecidableEq, Repr

/-- `model_t::vertex_t` (model.cpp): position, normal, texture coordinate and
per-vertex color (`model_t::color_t` is a `vector4f_t`). -/
structure vertex_t : Type where
  coord : vector4f_t
  normal : vector4f_t
  texcoord : texcoord_t
  color : vector4f_t
deriving DecidableEq, Repr

/-- `model_t::material_t` (model.cpp lines 23-29). -/
structure material_t : Type where
  shininess : ℚ
  ambient : vector4f_t
  diffuse : vector4f_t
  specular : vector4f_t
deriving DecidableEq, Repr

/-- `model_t::face_t` (model.cpp): three vertices, a face normal and a
material. -/
structure face_t : Type where
  v0 : vertex_t
  v1 : vertex_t
  v2 : vertex_t
  normal : vector4f_t
  material : material_t
deriving DecidableEq, Repr

/-- `model_t::box_t` (model.cpp lines 169-192). -/
structure box_t : Type where
  min : vector4f_t
  max : vector4f_t
deriving DecidableEq, Repr

/-- `model_t` (model.cpp): the ordered face list and the bounding box. -/
structure model_t : Type where
  face : List face_t
  box : box_t
deriving DecidableEq, Repr

/-- Embedding of `model_t::material_t::operator=` (model.cpp lines 43-55):
self-assignment is detected and silently returns `*this` unchanged; otherwise
the four fields are copied. -/
def material_assign (dst src : material_t) (self : Bool) : Except renderError material_t :=
  if self then .ok dst else .ok src

/-- Embedding of `model_t::vertex_t::operator=` (model.cpp lines 79-88): same
silent self-assignment guard. -/
def vertex_assign (dst src : vertex_t) (self : Bool) : Except renderError vertex_t :=
  if self then .ok dst else .ok src

/-- Embedding of `model_t::face_t::operator=` (model.cpp lines 157-167): same
silent self-assignment guard. -/
def face_assign (dst src : face_t) (self : Bool) : Except renderError face_t :=
  if self then .ok dst else .ok src

/-- Embedding of `model_t::box_t::operator=` (model.cpp lines 184-192): same
silent self-assignment guard. -/
def box_assign (dst src : box_t) (self : Bool) : Except renderError box_t :=
  if self then .ok dst else .ok src

/-- Embedding of `model_t::operator=` (model.cpp lines 331-338): same silent
self-assignment guard; otherwise face list and box are copied. -/
def model_assign (dst src : model_t) (self : Bool) : Except renderError model_t :=
  if self then .ok dst else .ok src

/-- The `shader_data_t` fields `default_shader_t::vertex` reads: model, view
and projection matrices. -/
structure shader_data_t : Type where
  model_matrix : matrix_t
  view_matrix : matrix_t
  project_matrix : matrix_t

/-- Embedding of `default_shader_t::vertex` (default_shader.cpp lines 91-108):
`mvp = project_matrix * view_matrix * model_matrix` (left associated), each
vertex position is replaced by `mvp * coord`, the face normal is recomputed as
`((v2.coord - v0.coord) ^ (v1.coord - v0.coord)).normalize()`, and nothing else
of the face is touched. -/
def default_shader_vertex (sqrtf : ℚ → ℚ) (sd : shader_data_t) (f : face_t) : face_t :=
  let mvp := matMul (matMul sd.project_matrix sd.view_matrix) sd.model_matrix
  let v0 := { f.v0 with coord := matVecMul mvp f.v0.coord }
  let v1 := { f.v1 with coord := matVecMul mvp f.v1.coord }
  let v2 := { f.v2 with coord := matVecMul mvp f.v2.coord }
  let v2v0 := vsub v2.coord v0.coord
  let v1v0 := vsub v1.coord v0.coord
  { f with v0 := v0, v1 := v1, v2 := v2, normal := vnormalize sqrtf (vcross v2v0 v1v0) }

/-! ## Theorems -/

/-- Any collinear triple of points has a zero barycentric denominator. -/
theorem collinear_deno_zero (p0 p1 p2 : vector4f_t) (h : Collinear3 p0 p1 p2) :
    bary_deno p0 p1 p2 = 0 := by
  rcases h with ⟨k, hk | hk⟩ <;>
    · unfold bary_deno
      rw [hk]
      simp only [vsmul]
      ring

/-- C1: for every degenerate triangle (p0,p1,p2) whose projected denominator
`deno = ab.x*ac.y - ab.y*ac.x` is 0 — in particular for every collinear triple
— and for every query point p, `get_barycentric_coord` takes the early-return
branch: it reports success = false with the default vector, before the
divisions by `deno` are reached. -/
theorem C1_degenerate_barycentric (p0 p1 p2 p : vector4f_t)
    (h : bary_deno p0 p1 p2 = 0 ∨ Collinear3 p0 p1 p2) :
    get_barycentric_coord p0 p1 p2 p = (false, vector4f_t.zero) := by
  have hd : (vsub p1 p0).x * (vsub p2 p0).y - (vsub p1 p0).y * (vsub p2 p0).x = 0 := by
    rcases h with h | h
    · exact h
    · exact collinear_deno_zero p0 p1 p2 h
  simp only [get_barycentric_coord, if_pos hd]

/-- Witness for C1 at a concrete degenerate input (a triple of coincident
points) and a concrete query point. -/
theorem C1_degenerate_barycentric_witness :
    (bary_deno vector4f_t.zero vector4f_t.zero vector4f_t.zero = 0 ∨
      Collinear3 vector4f_t.zero vector4f_t.zero vector4f_t.zero) ∧
    get_barycentric_coord vector4f_t.zero vector4f_t.zero vector4f_t.zero
      (vector4f_t.mk3 1 2 3) = (false, vector4f_t.zero) :=
  ⟨Or.inl (by norm_num [bary_deno, vsub, vector4f_t.zero]),
   C1_degenerate_barycentric _ _ _ _ (Or.inl (by norm_num [bary_deno, vsub, vector4f_t.zero]))⟩

/-- C2: for every non-degenerate triangle (nonzero denominator) and every query
point, the returned weights sum to 1, the boolean is true exactly when all
three weights lie in [0,1], and any point strictly inside the triangle (in the
(x,y) projection) is accepted. -/
theorem C2_nondegenerate_barycentric (p0 p1 p2 p : vector4f_t)
    (h : bary_deno p0 p1 p2 ≠ 0) :
    ((get_barycentric_coord p0 p1 p2 p).2.x + (get_barycentric_coord p0 p1 p2 p).2.y
      + (get_barycentric_coord p0 p1 p2 p).2.z = 1) ∧
    ((get_barycentric_coord p0 p1 p2 p).1 = true ↔
      (0 ≤ (get_barycentric_coord p0 p1 p2 p).2.x ∧ (get_barycentric_coord p0 p1 p2 p).2.x ≤ 1 ∧
       0 ≤ (get_barycentric_coord p0 p1 p2 p).2.y ∧ (get_barycentric_coord p0 p1 p2 p).2.y ≤ 1 ∧
       0 ≤ (get_barycentric_coord p0 p1 p2 p).2.z ∧ (get_barycentric_coord p0 p1 p2 p).2.z ≤ 1)) ∧
    (∀ s t : ℚ, 0 < s → 0 < t → s + t < 1 →
      p.x - p0.x = s * (p1.x - p0.x) + t * (p2.x - p0.x) →
      p.y - p0.y = s * (p1.y - p0.y) + t * (p2.y - p0.y) →
      (get_barycentric_coord p0 p1 p2 p).1 = true) := by
  have h0 : (p1.x - p0.x) * (p2.y - p0.y) - (p1.y - p0.y) * (p2.x - p0.x) ≠ 0 := by
    simpa only [bary_deno, vsub] using h
  simp only [get_barycentric_coord, vsub, vector4f_t.mk3]
  rw [if_neg h0]
  simp only [Bool.and_eq_true, decide_eq_true_eq, ge_iff_le]
  refine ⟨by ring, by tauto, ?_⟩
  intro s t hs ht hst hx hy
  have hSval : ((p2.y - p0.y) * (p.x - p0.x) - (p2.x - p0.x) * (p.y - p0.y))
      / ((p1.x - p0.x) * (p2.y - p0.y) - (p1.y - p0.y) * (p2.x - p0.x)) = s := by
    rw [div_eq_iff h0, hx, hy]
    ring
  have hTval : ((p1.x - p0.x) * (p.y - p0.y) - (p1.y - p0.y) * (p.x - p0.x))
      / ((p1.x - p0.x) * (p2.y - p0.y) - (p1.y - p0.y) * (p2.x - p0.x)) = t := by
    rw [div_eq_iff h0, hx, hy]
    ring
  rw [hSval, hTval]
  refine ⟨⟨by linarith, by linarith⟩, ⟨by linarith, by linarith⟩, by linarith, by linarith⟩

/-- Witness for C2 at a concrete non-degenerate triangle: the unit right
triangle and the interior point (1/4, 1/4). -/
theorem C2_nondegenerate_barycentric_witness :
    bary_deno ⟨0, 0, 0, 1⟩ ⟨1, 0, 0, 1⟩ ⟨0, 1, 0, 1⟩ ≠ 0 ∧
    (((get_barycentric_coord ⟨0, 0, 0, 1⟩ ⟨1, 0, 0, 1⟩ ⟨0, 1, 0, 1⟩ ⟨1/4, 1/4, 0, 1⟩).2.x
        + (get_barycentric_coord ⟨0, 0, 0, 1⟩ ⟨1, 0, 0, 1⟩ ⟨0, 1, 0, 1⟩ ⟨1/4, 1/4, 0, 1⟩).2.y
        + (get_barycentric_coord ⟨0, 0, 0, 1⟩ ⟨1, 0, 0, 1⟩ ⟨0, 1, 0, 1⟩ ⟨1/4, 1/4, 0, 1⟩).2.z
        = 1) ∧
      ((get_barycentric_coord ⟨0, 0, 0, 1⟩ ⟨1, 0, 0, 1⟩ ⟨0, 1, 0, 1⟩ ⟨1/4, 1/4, 0, 1⟩).1 = true ↔
        (0 ≤ (get_barycentric_coord ⟨0, 0, 0, 1⟩ ⟨1, 0, 0, 1⟩ ⟨0, 1, 0, 1⟩ ⟨1/4, 1/4, 0, 1⟩).2.x ∧
         (get_barycentric_coord ⟨0, 0, 0, 1⟩ ⟨1, 0, 0, 1⟩ ⟨0, 1, 0, 1⟩ ⟨1/4, 1/4, 0, 1⟩).2.x ≤ 1 ∧
         0 ≤ (get_barycentric_coord ⟨0, 0, 0, 1⟩ ⟨1, 0, 0, 1⟩ ⟨0, 1, 0, 1⟩ ⟨1/4, 1/4, 0, 1⟩).2.y ∧
         (get_barycentric_coord ⟨0, 0, 0, 1⟩ ⟨1, 0, 0, 1⟩ ⟨0, 1, 0, 1⟩ ⟨1/4, 1/4, 0, 1⟩).2.y ≤ 1 ∧
         0 ≤ (get_barycentric_coord ⟨0, 0, 0, 1⟩ ⟨1, 0, 0, 1⟩ ⟨0, 1, 0, 1⟩ ⟨1/4, 1/4, 0, 1⟩).2.z ∧
         (get_barycentric_coord ⟨0, 0, 0, 1⟩ ⟨1, 0, 0, 1⟩ ⟨0, 1, 0, 1⟩ ⟨1/4, 1/4, 0, 1⟩).2.z ≤ 1)) ∧
      (∀ s t : ℚ, 0 < s → 0 < t → s + t < 1 →
        (1/4 : ℚ) - 0 = s * (1 - 0) + t * (0 - 0) →
        (1/4 : ℚ) - 0 = s * (0 - 0) + t * (1 - 0) →
        (get_barycentric_coord ⟨0, 0, 0, 1⟩ ⟨1, 0, 0, 1⟩ ⟨0, 1, 0, 1⟩ ⟨1/4, 1/4, 0, 1⟩).1
          = true)) :=
  ⟨by norm_num [bary_deno, vsub],
   C2_nondegenerate_barycentric _ _ _ _ (by norm_num [bary_deno, vsub])⟩

/-- Every entry of the 3x3 minor built by `cofactor` at order 4 is the original
entry with the deleted row and column skipped. -/
theorem cofactor4_entry (m : matrix_t) (r c : Nat) (hr : r < 4) (hc : c < 4)
    (a b : Nat) (ha : a < 3) (hb : b < 3) :
    (cofactor m r c 4).mat a b = m.mat (skip r a) (skip c b) := by
  interval_cases r <;> interval_cases c <;> interval_cases a <;> interval_cases b <;> rfl

/-- The order-3 cofactor expansion written out. -/
theorem determ3_expand (m : matrix_t) :
    determ m 3 =
      m.mat 0 0 * (m.mat 1 1 * m.mat 2 2 - m.mat 1 2 * m.mat 2 1)
      - m.mat 0 1 * (m.mat 1 0 * m.mat 2 2 - m.mat 1 2 * m.mat 2 0)
      + m.mat 0 2 * (m.mat 1 0 * m.mat 2 1 - m.mat 1 1 * m.mat 2 0) := by
  simp only [determ, cofactor, cofStep, List.range_succ, List.range_zero, List.foldl_nil,
    List.foldl_cons, List.foldl_append]
  norm_num
  ring

/-- The 3x3 sub-determinant of a 4x4 minor, in terms of the original entries. -/
theorem det3_cof (m : matrix_t) (r c : Nat) (hr : r < 4) (hc : c < 4) :
    determ (cofactor m r c 4) 3 =
      m.mat (skip r 0) (skip c 0)
          * (m.mat (skip r 1) (skip c 1) * m.mat (skip r 2) (skip c 2)
            - m.mat (skip r 1) (skip c 2) * m.mat (skip r 2) (skip c 1))
        - m.mat (skip r 0) (skip c 1)
          * (m.mat (skip r 1) (skip c 0) * m.mat (skip r 2) (skip c 2)
            - m.mat (skip r 1) (skip c 2) * m.mat (skip r 2) (skip c 0))
        + m.mat (skip r 0) (skip c 2)
          * (m.mat (skip r 1) (skip c 0) * m.mat (skip r 2) (skip c 1)
            - m.mat (skip r 1) (skip c 1) * m.mat (skip r 2) (skip c 0)) := by
  rw [determ3_expand]
  rw [cofactor4_entry m r c hr hc 0 0 (by norm_num) (by norm_num),
    cofactor4_entry m r c hr hc 0 1 (by norm_num) (by norm_num),
    cofactor4_entry m r c hr hc 0 2 (by norm_num) (by norm_num),
    cofactor4_entry m r c hr hc 1 0 (by norm_num) (by norm_num),
    cofactor4_entry m r c hr hc 1 1 (by norm_num) (by norm_num),
    cofactor4_entry m r c hr hc 1 2 (by norm_num) (by norm_num),
    cofactor4_entry m r c hr hc 2 0 (by norm_num) (by norm_num),
    cofactor4_entry m r c hr hc 2 1 (by norm_num) (by norm_num),
    cofactor4_entry m r c hr hc 2 2 (by norm_num) (by norm_num)]

/-- One unfolding step of `determ` at order 4: the signed sum over row 0. -/
theorem det4_step (m : matrix_t) :
    determ m 4 = 0 + 1 * m.mat 0 0 * determ (cofactor m 0 0 4) 3
      + -1 * m.mat 0 1 * determ (cofactor m 0 1 4) 3
      + - -1 * m.mat 0 2 * determ (cofactor m 0 2 4) 3
      + - - -1 * m.mat 0 3 * determ (cofactor m 0 3 4) 3 := rfl

/-- The full order-4 cofactor expansion of `determ`. -/
theorem determ4_expand (m : matrix_t) :
    determ m 4 =
      m.mat 0 0 * (m.mat 1 1 * (m.mat 2 2 * m.mat 3 3 - m.mat 2 3 * m.mat 3 2)
          - m.mat 1 2 * (m.mat 2 1 * m.mat 3 3 - m.mat 2 3 * m.mat 3 1)
          + m.mat 1 3 * (m.mat 2 1 * m.mat 3 2 - m.mat 2 2 * m.mat 3 1))
      - m.mat 0 1 * (m.mat 1 0 * (m.mat 2 2 * m.mat 3 3 - m.mat 2 3 * m.mat 3 2)
          - m.mat 1 2 * (m.mat 2 0 * m.mat 3 3 - m.mat 2 3 * m.mat 3 0)
          + m.mat 1 3 * (m.mat 2 0 * m.mat 3 2 - m.mat 2 2 * m.mat 3 0))
      + m.mat 0 2 * (m.mat 1 0 * (m.mat 2 1 * m.mat 3 3 - m.mat 2 3 * m.mat 3 1)
          - m.mat 1 1 * (m.mat 2 0 * m.mat 3 3 - m.mat 2 3 * m.mat 3 0)
          + m.mat 1 3 * (m.mat 2 0 * m.mat 3 1 - m.mat 2 1 * m.mat 3 0))
      - m.mat 0 3 * (m.mat 1 0 * (m.mat 2 1 * m.mat 3 2 - m.mat 2 2 * m.mat 3 1)
          - m.mat 1 1 * (m.mat 2 0 * m.mat 3 2 - m.mat 2 2 * m.mat 3 0)
          + m.mat 1 2 * (m.mat 2 0 * m.mat 3 1 - m.mat 2 1 * m.mat 3 0)) := by
  have d0 := det3_cof m 0 0 (by norm_num) (by norm_num)
  have d1 := det3_cof m 0 1 (by norm_num) (by norm_num)
  have d2 := det3_cof m 0 2 (by norm_num) (by norm_num)
  have d3 := det3_cof m 0 3 (by norm_num) (by norm_num)
  simp only [skip] at d0 d1 d2 d3
  norm_num at d0 d1 d2 d3
  rw [det4_step, d0, d1, d2, d3]
  ring

/-- Laplace: the matrix times its adjoint is the determinant times the
identity, entry by entry. -/
theorem mul_adjoint_entry (m : matrix_t) : ∀ i j, i < 4 → j < 4 →
    (matMul m (adjoint m)).mat i j = determ m 4 * (if i = j then 1 else 0) := by
  have d00 := det3_cof m 0 0 (by norm_num) (by norm_num)
  have d01 := det3_cof m 0 1 (by norm_num) (by norm_num)
  have d02 := det3_cof m 0 2 (by norm_num) (by norm_num)
  have d03 := det3_cof m 0 3 (by norm_num) (by norm_num)
  have d10 := det3_cof m 1 0 (by norm_num) (by norm_num)
  have d11 := det3_cof m 1 1 (by norm_num) (by norm_num)
  have d12 := det3_cof m 1 2 (by norm_num) (by norm_num)
  have d13 := det3_cof m 1 3 (by norm_num) (by norm_num)
  have d20 := det3_cof m 2 0 (by norm_num) (by norm_num)
  have d21 := det3_cof m 2 1 (by norm_num) (by norm_num)
  have d22 := det3_cof m 2 2 (by norm_num) (by norm_num)
  have d23 := det3_cof m 2 3 (by norm_num) (by norm_num)
  have d30 := det3_cof m 3 0 (by norm_num) (by norm_num)
  have d31 := det3_cof m 3 1 (by norm_num) (by norm_num)
  have d32 := det3_cof m 3 2 (by norm_num) (by norm_num)
  have d33 := det3_cof m 3 3 (by norm_num) (by norm_num)
  simp only [skip] at d00 d01 d02 d03 d10 d11 d12 d13 d20 d21 d22 d23 d30 d31 d32 d33
  norm_num at d00 d01 d02 d03 d10 d11 d12 d13 d20 d21 d22 d23 d30 d31 d32 d33
  intro i j hi hj
  interval_cases i <;> interval_cases j <;>
    (simp only [matMul, adjoint]
     norm_num
     simp only [det4_step, d00, d01, d02, d03, d10, d11, d12, d13,
       d20, d21, d22, d23, d30, d31, d32, d33]
     ring)

/-- Scaling the right factor scales each product entry. -/
theorem matMul_matScale_right (x y : matrix_t) (v : ℚ) (i j : Nat)
    (hi : i < 4) (hj : j < 4) :
    (matMul x (matScale y v)).mat i j = v * (matMul x y).mat i j := by
  simp [matMul, matScale, hi, hj]
  ring

/-- Matrix product entries depend only on the 4x4 block of the left factor. -/
theorem matMul_congr_left (x x2 y : matrix_t)
    (h : ∀ a b, a < 4 → b < 4 → x.mat a b = x2.mat a b)
    (i j : Nat) (hi : i < 4) (hj : j < 4) :
    (matMul x y).mat i j = (matMul x2 y).mat i j := by
  simp only [matMul]
  rw [if_pos ⟨hi, hj⟩, if_pos ⟨hi, hj⟩,
    h i 0 hi (by norm_num), h i 1 hi (by norm_num),
    h i 2 hi (by norm_num), h i 3 hi (by norm_num)]

/-- Matrix product entries depend only on the 4x4 block of the right factor. -/
theorem matMul_congr_right (x y y2 : matrix_t)
    (h : ∀ a b, a < 4 → b < 4 → y.mat a b = y2.mat a b)
    (i j : Nat) (hi : i < 4) (hj : j < 4) :
    (matMul x y).mat i j = (matMul x y2).mat i j := by
  simp only [matMul]
  rw [if_pos ⟨hi, hj⟩, if_pos ⟨hi, hj⟩,
    h 0 j (by norm_num) hj, h 1 j (by norm_num) hj,
    h 2 j (by norm_num) hj, h 3 j (by norm_num) hj]

/-- Multiplying by the identity on the left is neutral on the 4x4 block. -/
theorem identity_matMul_entry (y : matrix_t) (i j : Nat) (hi : i < 4) (hj : j < 4) :
    (matMul matrix_t.identity y).mat i j = y.mat i j := by
  interval_cases i <;> simp [matMul, matrix_t.identity, hj]

/-- Multiplying by the identity on the right is neutral on the 4x4 block. -/
theorem matMul_identity_entry (y : matrix_t) (i j : Nat) (hi : i < 4) (hj : j < 4) :
    (matMul y matrix_t.identity).mat i j = y.mat i j := by
  interval_cases j <;> simp [matMul, matrix_t.identity, hi]

/-- The matrix product is associative on the 4x4 block. -/
theorem matMul_assoc_entry (x y z : matrix_t) (i j : Nat) (hi : i < 4) (hj : j < 4) :
    (matMul (matMul x y) z).mat i j = (matMul x (matMul y z)).mat i j := by
  simp [matMul, hi, hj]
  ring

/-- For a matrix with nonzero determinant, the product with
`adjoint * (1 / det)` is the identity on the 4x4 block. -/
theorem mul_invVal_entry (x : matrix_t) (hx : determ x 4 ≠ 0) (i j : Nat)
    (hi : i < 4) (hj : j < 4) :
    (matMul x (matScale (adjoint x) (1 / determ x 4))).mat i j
      = matrix_t.identity.mat i j := by
  rw [matMul_matScale_right x (adjoint x) (1 / determ x 4) i j hi hj,
    mul_adjoint_entry x i j hi hj]
  have hid : matrix_t.identity.mat i j = if i = j then 1 else 0 := by
    simp only [matrix_t.identity]
    rw [if_pos (And.intro hi hj)]
  rw [hid]
  rcases eq_or_ne i j with rfl | hne2
  · simp only [if_pos rfl]
    field_simp
  · simp only [if_neg hne2]
    ring

/-- C3: `inverse` fails — always with the singular-matrix error — exactly when
the absolute value of the cofactor-expansion determinant is at most the machine
epsilon of the element type, and otherwise returns the adjoint scaled by the
reciprocal determinant (the adjugate divided by the determinant); the receiver
is never written (the embedding is a pure function of it). -/
theorem C3_inverse_singular_iff (m : matrix_t) :
    ((∃ e, inverse m = .error e) ↔ |determ m 4| ≤ flt_epsilon) ∧
    (∀ e, inverse m = .error e → e = .singularMatrix) ∧
    (flt_epsilon < |determ m 4| →
      inverse m = .ok (matScale (adjoint m) (1 / determ m 4))) := by
  simp only [inverse]
  split_ifs with h
  · refine ⟨iff_of_true ⟨.singularMatrix, rfl⟩ h, ?_, ?_⟩
    · intro e he
      simpa using he.symm
    · intro hlt
      exact absurd h (not_le.mpr hlt)
  · refine ⟨?_, ?_, fun _ => rfl⟩
    · constructor
      · rintro ⟨e, he⟩
        simp at he
      · intro hle
        exact absurd hle h
    · intro e he
      simp at he

/-- Witness for C3 at the concrete non-singular matrix `diagMat 1 1 1 1`
(determinant 1): inversion succeeds and returns the scaled adjoint. -/
theorem C3_inverse_singular_iff_witness :
    inverse (diagMat 1 1 1 1)
      = .ok (matScale (adjoint (diagMat 1 1 1 1)) (1 / determ (diagMat 1 1 1 1) 4)) :=
  (C3_inverse_singular_iff (diagMat 1 1 1 1)).2.2 (by
    rw [determ4_expand]
    norm_num [diagMat, flt_epsilon])

/-- C4 (amended): for every non-singular matrix the product with its inverse is
approximately the identity; and whenever the inverse is itself non-singular —
which the source does not guarantee, see the counterexample — inverting it
again gives back the original matrix up to epsilon. -/
theorem C4_roundtrip_amended (m : matrix_t) (hdet : flt_epsilon < |determ m 4|) :
    ∃ inv, inverse m = .ok inv ∧
      matrixApproxEq (matMul m inv) matrix_t.identity = true ∧
      ∀ inv2, inverse inv = .ok inv2 → matrixApproxEq inv2 m = true := by
  have hne : determ m 4 ≠ 0 := by
    intro h0
    rw [h0] at hdet
    norm_num [flt_epsilon] at hdet
  have hInv : inverse m = .ok (matScale (adjoint m) (1 / determ m 4)) := by
    simp only [inverse]
    rw [if_neg (not_le.mpr hdet)]
  refine ⟨_, hInv, ?_, ?_⟩
  · simp only [matrixApproxEq, List.all_eq_true, List.mem_range, decide_eq_true_eq]
    intro i hi j hj
    rw [mul_invVal_entry m hne i j hi hj, sub_self, abs_zero]
    norm_num [flt_epsilon]
  · intro inv2 h2
    simp only [inverse] at h2
    split_ifs at h2 with hd2
    have hdne2 : determ (matScale (adjoint m) (1 / determ m 4)) 4 ≠ 0 := by
      intro h0
      rw [h0] at hd2
      norm_num [flt_epsilon] at hd2
    have hval : inv2 = matScale (adjoint (matScale (adjoint m) (1 / determ m 4)))
        (1 / determ (matScale (adjoint m) (1 / determ m 4)) 4) := by
      injection h2 with h3
      exact h3.symm
    have hMulLeft := mul_invVal_entry m hne
    have hMulRight : ∀ i j, i < 4 → j < 4 →
        (matMul (matScale (adjoint m) (1 / determ m 4)) inv2).mat i j
          = matrix_t.identity.mat i j := by
      intro i j hi hj
      rw [hval]
      exact mul_invVal_entry _ hdne2 i j hi hj
    have hchain : ∀ i j, i < 4 → j < 4 → inv2.mat i j = m.mat i j := by
      intro i j hi hj
      calc inv2.mat i j
          = (matMul matrix_t.identity inv2).mat i j :=
            (identity_matMul_entry inv2 i j hi hj).symm
        _ = (matMul (matMul m (matScale (adjoint m) (1 / determ m 4))) inv2).mat i j :=
            (matMul_congr_left _ _ _ hMulLeft i j hi hj).symm
        _ = (matMul m (matMul (matScale (adjoint m) (1 / determ m 4)) inv2)).mat i j :=
            matMul_assoc_entry _ _ _ i j hi hj
        _ = (matMul m matrix_t.identity).mat i j :=
            matMul_congr_right _ _ _ hMulRight i j hi hj
        _ = m.mat i j := matMul_identity_entry m i j hi hj
    simp only [matrixApproxEq, List.all_eq_true, List.mem_range, decide_eq_true_eq]
    intro i hi j hj
    rw [hchain i j hi hj, sub_self, abs_zero]
    norm_num [flt_epsilon]

/-- Witness for the amended C4 at the concrete non-singular matrix
`diagMat 1 1 1 1`. -/
theorem C4_roundtrip_amended_witness :
    flt_epsilon < |determ (diagMat 1 1 1 1) 4| ∧
    ∃ inv, inverse (diagMat 1 1 1 1) = .ok inv ∧
      matrixApproxEq (matMul (diagMat 1 1 1 1) inv) matrix_t.identity = true ∧
      ∀ inv2, inverse inv = .ok inv2 → matrixApproxEq inv2 (diagMat 1 1 1 1) = true :=
  ⟨by rw [determ4_expand]; norm_num [diagMat, flt_epsilon],
   C4_roundtrip_amended (diagMat 1 1 1 1)
     (by rw [determ4_expand]; norm_num [diagMat, flt_epsilon])⟩

/-- The adjoint of `diagMat 54 54 54 54` is `diagMat` of the 3x3 sub-products,
i.e. 54³ = 157464 on the diagonal. -/
theorem adjoint_diag54 : ∀ i j, i < 4 → j < 4 →
    (adjoint (diagMat 54 54 54 54)).mat i j = if i = j then (157464 : ℚ) else 0 := by
  intro i j hi hj
  interval_cases i <;> interval_cases j <;>
    (simp only [adjoint]
     norm_num
     rw [det3_cof _ _ _ (by norm_num) (by norm_num)]
     norm_num [skip, diagMat])

/-- C4 counterexample: `diagMat 54 54 54 54` is non-singular (its determinant
54⁴ = 8503056 exceeds the epsilon threshold), its inversion succeeds, yet
inverting the result fails with the singular-matrix error, because the
determinant of the inverse, 54⁻⁴, is below the machine epsilon 2⁻²³. So
`M.inverse().inverse()` is not approximately `M` for every non-singular `M`:
for this `M` it does not exist at all. -/
theorem C4_roundtrip_counterexample :
    flt_epsilon < |determ (diagMat 54 54 54 54) 4| ∧
    ∃ inv, inverse (diagMat 54 54 54 54) = .ok inv ∧
      inverse inv = .error .singularMatrix := by
  have hdetM : determ (diagMat 54 54 54 54) 4 = 8503056 := by
    rw [determ4_expand]
    norm_num [diagMat]
  have hInv : inverse (diagMat 54 54 54 54)
      = .ok (matScale (adjoint (diagMat 54 54 54 54)) (1 / determ (diagMat 54 54 54 54) 4)) := by
    simp only [inverse]
    rw [if_neg (by rw [hdetM]; norm_num [flt_epsilon])]
  have hdetI : determ (matScale (adjoint (diagMat 54 54 54 54))
      (1 / determ (diagMat 54 54 54 54) 4)) 4 = 1 / 8503056 := by
    rw [determ4_expand]
    simp only [matScale, hdetM]
    norm_num [adjoint_diag54 0 0, adjoint_diag54 0 1, adjoint_diag54 0 2, adjoint_diag54 0 3,
      adjoint_diag54 1 0, adjoint_diag54 1 1, adjoint_diag54 1 2, adjoint_diag54 1 3,
      adjoint_diag54 2 0, adjoint_diag54 2 1, adjoint_diag54 2 2, adjoint_diag54 2 3,
      adjoint_diag54 3 0, adjoint_diag54 3 1, adjoint_diag54 3 2, adjoint_diag54 3 3]
  refine ⟨by rw [hdetM]; norm_num [flt_epsilon], _, hInv, ?_⟩
  simp only [inverse]
  rw [if_pos (by
    rw [hdetI, abs_of_pos (by norm_num : (0 : ℚ) < 1 / 8503056)]
    norm_num [flt_epsilon])]

/-- C10: the row subscript of `matrix_t` rejects (with invalid-argument) only
indices strictly greater than ORDER = 4; the out-of-range index 4 passes the
`_idx > ORDER` guard and yields the reader of row 4 — one row past the last
valid row (row indices below 4) — instead of a reported error. -/
theorem C10_row_subscript (m : matrix_t) :
    (∀ idx, (∃ e, matrix_row_subscript m idx = .error e) ↔ idx > 4) ∧
    (∀ idx, idx > 4 → matrix_row_subscript m idx = .error .invalidArgument) ∧
    (matrix_row_subscript m 4 = .ok (fun j => m.mat 4 j) ∧ ¬ 4 < 4) := by
  refine ⟨fun idx => ?_, fun idx hgt => ?_, ?_, by norm_num⟩
  · unfold matrix_row_subscript
    split_ifs with hgt
    · exact iff_of_true ⟨.invalidArgument, rfl⟩ hgt
    · constructor
      · rintro ⟨e, he⟩
        simp at he
      · intro hgt2
        exact absurd hgt2 hgt
  · unfold matrix_row_subscript
    rw [if_pos hgt]
  · unfold matrix_row_subscript
    norm_num

/-- Witness for C10 at a concrete matrix: index 4 is accepted. -/
theorem C10_row_subscript_witness :
    matrix_row_subscript (diagMat 1 1 1 1) 4
      = .ok (fun j => (diagMat 1 1 1 1).mat 4 j) ∧ ¬ 4 < 4 :=
  (C10_row_subscript (diagMat 1 1 1 1)).2.2

/-- Two in-range coordinates with the same row-major flat index are equal. -/
theorem flat_index_inj (w x y x2 y2 : Nat) (hx : x < w) (hx2 : x2 < w)
    (heq : y * w + x = y2 * w + x2) : x = x2 ∧ y = y2 := by
  have e1 : (y * w + x) % w = x := by
    rw [Nat.add_comm, Nat.add_mul_mod_self_right, Nat.mod_eq_of_lt hx]
  have e2 : (y2 * w + x2) % w = x2 := by
    rw [Nat.add_comm, Nat.add_mul_mod_self_right, Nat.mod_eq_of_lt hx2]
  have hxx : x = x2 := by rw [← e1, heq, e2]
  refine ⟨hxx, ?_⟩
  subst hxx
  have hw : 0 < w := Nat.lt_of_le_of_lt (Nat.zero_le x) hx
  exact Nat.eq_of_mul_eq_mul_right hw (by omega)

/-- C5: `framebuffer_t::pixel` fails exactly when x is off the width, y is off
the height, or the depth is NaN; the guards precede both stores, so a failure
returns no modified state (both buffers unchanged); a success stores the color
and the depth exactly at the flat cell of (x, y) and leaves every other
in-range cell of both buffers unchanged, with the dimensions intact. -/
theorem C5_pixel_spec (fb : framebuffer_t) (x y : Nat) (c : color_t) (d : depth_t) :
    ((∃ e, framebuffer_t.pixel fb x y c d = .error e) ↔
      (x ≥ fb.width ∨ y ≥ fb.height ∨ d.isNaN = true)) ∧
    (∀ fb2, framebuffer_t.pixel fb x y c d = .ok fb2 →
      fb2.width = fb.width ∧ fb2.height = fb.height ∧
      fb2.colorArr (y * fb.width + x) = c ∧ fb2.depthArr (y * fb.width + x) = d ∧
      (∀ x2 y2, x2 < fb.width → y2 < fb.height → ¬(x2 = x ∧ y2 = y) →
        fb2.colorArr (y2 * fb.width + x2) = fb.colorArr (y2 * fb.width + x2) ∧
        fb2.depthArr (y2 * fb.width + x2) = fb.depthArr (y2 * fb.width + x2))) := by
  unfold framebuffer_t.pixel
  split_ifs with h1 h2 h3
  · exact ⟨iff_of_true ⟨.invalidArgument, rfl⟩ (Or.inl h1),
      fun fb2 hh => by simp at hh⟩
  · exact ⟨iff_of_true ⟨.invalidArgument, rfl⟩ (Or.inr (Or.inl h2)),
      fun fb2 hh => by simp at hh⟩
  · exact ⟨iff_of_true ⟨.nanDepth, rfl⟩ (Or.inr (Or.inr h3)),
      fun fb2 hh => by simp at hh⟩
  · constructor
    · constructor
      · rintro ⟨e, he⟩
        simp at he
      · rintro (h | h | h)
        · exact absurd h h1
        · exact absurd h h2
        · exact absurd h h3
    · intro fb2 hh
      injection hh with hh2
      subst hh2
      refine ⟨rfl, rfl, by simp, by simp, ?_⟩
      intro x2 y2 hx2 hy2 hne
      have hx : x < fb.width := Nat.lt_of_not_le h1
      have hidx : y2 * fb.width + x2 ≠ y * fb.width + x := by
        intro heq
        exact hne ⟨(flat_index_inj fb.width x2 y2 x y hx2 hx heq).1,
          (flat_index_inj fb.width x2 y2 x y hx2 hx heq).2⟩
      constructor <;> simp [hidx]

/-- Witness for C5 at a concrete 2x2 framebuffer: the out-of-range x = 5 is
reported as an error. -/
theorem C5_pixel_spec_witness :
    ∃ e, framebuffer_t.pixel
        (⟨2, 2, fun _ => ⟨0, 0, 0, 255⟩, fun _ => ⟨1, false⟩⟩ : framebuffer_t)
        5 0 ⟨9, 9, 9, 255⟩ ⟨5, false⟩ = .error e :=
  (C5_pixel_spec ⟨2, 2, fun _ => ⟨0, 0, 0, 255⟩, fun _ => ⟨1, false⟩⟩
      5 0 ⟨9, 9, 9, 255⟩ ⟨5, false⟩).1.mpr (Or.inl (by norm_num))

/-- C6 at the failing input: for 2x2 buffers, the `std::copy` of buffer
copy-assignment reads `width * height * sizeof(element)` = 16 elements — the
byte count used as an element count — while the source array owns only
`width * height` = 4 elements; the deep element-wise duplication the spec
requires copies exactly 4. The same holds for the depth buffer. -/
theorem C6_copy_count_bug :
    color_assign_copy_count 2 2 = 16 ∧ color_buffer_alloc_count 2 2 = 4 ∧
    depth_assign_copy_count 2 2 = 16 ∧ depth_buffer_alloc_count 2 2 = 4 ∧
    spec_deep_copy_count 2 2 = 4 ∧
    color_buffer_alloc_count 2 2 < color_assign_copy_count 2 2 ∧
    depth_buffer_alloc_count 2 2 < depth_assign_copy_count 2 2 := by
  norm_num [color_assign_copy_count, color_buffer_alloc_count, depth_assign_copy_count,
    depth_buffer_alloc_count, spec_deep_copy_count, sizeof_color_t, sizeof_depth_t]

/-- A matrix product is unchanged when the left factor is replaced by a matrix
with the same 4x4 block. -/
theorem matMul_congr_left_full (x x2 y : matrix_t)
    (h : ∀ a b, a < 4 → b < 4 → x.mat a b = x2.mat a b) :
    matMul x y = matMul x2 y := by
  simp only [matMul]
  congr 1
  funext i j
  by_cases hij : i < 4 ∧ j < 4
  · rw [if_pos hij, if_pos hij, h i 0 hij.1 (by norm_num), h i 1 hij.1 (by norm_num),
      h i 2 hij.1 (by norm_num), h i 3 hij.1 (by norm_num)]
  · rw [if_neg hij, if_neg hij]

/-- C7: each transform builder returns the newly built transform matrix
left-multiplied onto the existing matrix — `tmp * *this`, never `*this * tmp`
and never a replacement — and reads but does not write the receiver (the
embedding is a pure function of `m`, mirroring the `const` builders). -/
theorem C7_transform_builders (m : matrix_t) (x y z s angle : ℚ)
    (sqrtf cosf sinf : ℚ → ℚ) :
    matrix_t.translate m x y z = matMul (translationMatrix x y z) m ∧
    matrix_t.scaleUniform m s = matMul (scaleMatrix s s s) m ∧
    matrix_t.scaleXYZ m x y z = matMul (scaleMatrix x y z) m ∧
    matrix_t.rotate sqrtf cosf sinf m x y z angle
      = matMul (rotationMatrix (vnormalize sqrtf (vector4f_t.mk3 x y z))
          (cosf angle) (sinf angle)) m := by
  refine ⟨?_, ?_, ?_, ?_⟩
  · unfold matrix_t.translate
    apply matMul_congr_left_full
    intro a b ha hb
    interval_cases a <;> interval_cases b <;> rfl
  · unfold matrix_t.scaleUniform
    apply matMul_congr_left_full
    intro a b ha hb
    interval_cases a <;> interval_cases b <;> rfl
  · unfold matrix_t.scaleXYZ
    apply matMul_congr_left_full
    intro a b ha hb
    interval_cases a <;> interval_cases b <;> rfl
  · unfold matrix_t.rotate
    apply matMul_congr_left_full
    intro a b ha hb
    interval_cases a <;> interval_cases b <;> rfl

/-- C8 (amended): `matrix_t` and `framebuffer_t` assignment report
self-assignment as an error (`std::runtime_error`); the model-layer value types
— model, material, vertex, face, box — detect self-assignment and silently
return the object unchanged rather than reporting an error. -/
theorem C8_self_assignment_amended :
    (∀ (a b : matrix_t), matrix_assign a b true = .error .runtimeError) ∧
    (∀ (a b : framebuffer_t), framebuffer_assign a b true = .error .runtimeError) ∧
    (∀ (a b : model_t), model_assign a b true = .ok a) ∧
    (∀ (a b : material_t), material_assign a b true = .ok a) ∧
    (∀ (a b : vertex_t), vertex_assign a b true = .ok a) ∧
    (∀ (a b : face_t), face_assign a b true = .ok a) ∧
    (∀ (a b : box_t), box_assign a b true = .ok a) :=
  ⟨fun _ _ => rfl, fun _ _ => rfl, fun _ _ => rfl, fun _ _ => rfl, fun _ _ => rfl,
   fun _ _ => rfl, fun _ _ => rfl⟩

/-- C8 counterexample: self-assigning a concrete (empty) model succeeds
silently — `model_t::operator=` returns `*this` without reporting any error —
contradicting the claim that every listed type reports self-assignment as a
usage error. -/
theorem C8_self_assignment_counterexample :
    model_assign ⟨[], ⟨vector4f_t.zero, vector4f_t.zero⟩⟩
      ⟨[], ⟨vector4f_t.zero, vector4f_t.zero⟩⟩ true
      = .ok ⟨[], ⟨vector4f_t.zero, vector4f_t.zero⟩⟩ := rfl

/-- C9: the default shader's vertex stage multiplies each of the three vertex
positions by `project_matrix * view_matrix * model_matrix` (left associated),
recomputes the face normal as the normalized cross product of the transformed
edges `(v2 - v0)` and `(v1 - v0)`, and leaves the per-vertex texture
coordinates, colors and normals untouched. -/
theorem C9_vertex_stage (sqrtf : ℚ → ℚ) (sd : shader_data_t) (f : face_t) :
    (default_shader_vertex sqrtf sd f).v0.coord
      = matVecMul (matMul (matMul sd.project_matrix sd.view_matrix) sd.model_matrix)
          f.v0.coord ∧
    (default_shader_vertex sqrtf sd f).v1.coord
      = matVecMul (matMul (matMul sd.project_matrix sd.view_matrix) sd.model_matrix)
          f.v1.coord ∧
    (default_shader_vertex sqrtf sd f).v2.coord
      = matVecMul (matMul (matMul sd.project_matrix sd.view_matrix) sd.model_matrix)
          f.v2.coord ∧
    (default_shader_vertex sqrtf sd f).normal
      = vnormalize sqrtf (vcross
          (vsub
            (matVecMul (matMul (matMul sd.project_matrix sd.view_matrix) sd.model_matrix)
              f.v2.coord)
            (matVecMul (matMul (matMul sd.project_matrix sd.view_matrix) sd.model_matrix)
              f.v0.coord))
          (vsub
            (matVecMul (matMul (matMul sd.project_matrix sd.view_matrix) sd.model_matrix)
              f.v1.coord)
            (matVecMul (matMul (matMul sd.project_matrix sd.view_matrix) sd.model_matrix)
              f.v0.coord))) ∧
    (default_shader_vertex sqrtf sd f).v0.texcoord = f.v0.texcoord ∧
    (default_shader_vertex sqrtf sd f).v1.texcoord = f.v1.texcoord ∧
    (default_shader_vertex sqrtf sd f).v2.texcoord = f.v2.texcoord ∧
    (default_shader_vertex sqrtf sd f).v0.color = f.v0.color ∧
    (default_shader_vertex sqrtf sd f).v1.color = f.v1.color ∧
    (default_shader_vertex sqrtf sd f).v2.color = f.v2.color ∧
    (default_shader_vertex sqrtf sd f).v0.normal = f.v0.normal ∧
    (default_shader_vertex sqrtf sd f).v1.normal = f.v1.normal ∧
    (default_shader_vertex sqrtf sd f).v2.normal = f.v2.normal ∧
    (default_shader_vertex sqrtf sd f).material = f.material :=
  ⟨rfl, rfl, rfl, rfl, rfl, rfl, rfl, rfl, rfl, rfl, rfl, rfl, rfl, rfl⟩

end SimpleRenderer
